import Mathlib

/-!
Shallow embedding of the issue-backed versioned object store
(the minified client bundle: CacheManager, GitHubStoreClient and their
GitHub REST collaborators), together with proofs about the claims of the
specification.

Modelling conventions:
* JSON values are the inductive `J`; a parsed comment / issue body is
  `Option J`, where `none` stands for a body that is absent or is not
  valid JSON (every inspection of a body in the client goes through
  `JSON.parse`, so a body is only observable through its parse result).
* ISO timestamps are abstracted to a numeric clock (`Nat`); `Date.now()`
  becomes an explicit `now` argument threaded through the operations.
* The GitHub REST service is the explicit state `Server`; each endpoint
  used by the client (create issue, get issue, list issues by labels and
  state, create comment, list comments, create reaction, patch state)
  is a function on it.  A non-2xx response is `Except.error` carrying
  the same message the client would see.
* JavaScript `Map` objects are association lists whose operations mirror
  `Map.get`/`Map.set`/`Map.delete` (keys stay unique, insertion order
  preserved); JS truthiness is modelled where the source relies on it
  (the `s && (...)` eviction guard, `n.type || "update"`, `!this.token`).
-/

/-- JSON values, as produced by `JSON.parse`. An object is a list of
key/value pairs with distinct keys. -/
inductive J where
  | null : J
  | bool : Bool → J
  | num : Int → J
  | str : String → J
  | arr : List J → J
  | obj : List (String × J) → J
deriving Repr

/-- Property access `o[k]` on a parsed JS object (`none` = `undefined`). -/
def jsGet (fs : List (String × J)) (k : String) : Option J :=
  (fs.find? (fun p => p.1 == k)).map (fun p => p.2)

/-- JS truthiness of a JSON value. -/
def jTruthy : J → Bool
  | J.null => false
  | J.bool b => b
  | J.num n => n != 0
  | J.str s => s != ""
  | J.arr _ => true
  | J.obj _ => true

/-- JS strict equality of a JSON value with a string literal. -/
def jIsStr (v : J) (s : String) : Bool :=
  match v with
  | J.str t => t == s
  | _ => false

/-- A comment on a backing issue.  `body` is the parse result of the raw
comment body (`none` when the body is not valid JSON). -/
structure GComment where
  id : Nat
  body : Option J
  created_at : Nat
  reactions : List String
deriving Repr

/-- A GitHub issue as seen through the REST API surface that the client
uses.  `isOpen = true` is state "open". -/
structure GIssue where
  number : Nat
  title : String
  body : Option J
  labels : List String
  isOpen : Bool
  created_at : Nat
  updated_at : Nat
  comments : List GComment
deriving Repr

/-- The issue-tracker service state. -/
structure Server where
  issues : List GIssue
  nextIssue : Nat
  nextComment : Nat
deriving Repr

def Server.getIssue (srv : Server) (n : Nat) : Option GIssue :=
  srv.issues.find? (fun i => i.number == n)

def GIssue.hasAllLabels (i : GIssue) (ls : List String) : Bool :=
  ls.all (fun l => i.labels.contains l)

/-- `GET /issues?labels=...&state=...`; `stateFilter = some b` restricts to
issues with `isOpen = b`, `none` is `state=all`. -/
def Server.queryIssues (srv : Server) (ls : List String) (stateFilter : Option Bool) :
    List GIssue :=
  srv.issues.filter (fun i =>
    i.hasAllLabels ls && (match stateFilter with
      | none => true
      | some b => i.isOpen == b))

/-- `GET /issues?...&since=...`: GitHub's `since` keeps issues updated at or
after the bound (the boundary is included — looser than strict). -/
def Server.querySince (srv : Server) (ls : List String) (stateFilter : Option Bool)
    (since : Nat) : List GIssue :=
  (srv.queryIssues ls stateFilter).filter (fun i => since ≤ i.updated_at)

/-- `POST /issues`: issues are created open. -/
def Server.createIssue (srv : Server) (title : String) (body : Option J)
    (labels : List String) (now : Nat) : GIssue × Server :=
  let iss : GIssue :=
    { number := srv.nextIssue, title := title, body := body, labels := labels,
      isOpen := true, created_at := now, updated_at := now, comments := [] }
  (iss, { srv with issues := srv.issues ++ [iss], nextIssue := srv.nextIssue + 1 })

/-- `POST /issues/{n}/comments`; 404 on a missing issue. -/
def Server.addComment (srv : Server) (n : Nat) (body : Option J) (now : Nat) :
    Except String (Nat × Server) :=
  match srv.getIssue n with
  | none => Except.error "GitHub API error: 404"
  | some _ =>
    let cid := srv.nextComment
    Except.ok (cid,
      { srv with
        issues := srv.issues.map (fun i =>
          if i.number == n then
            { i with comments := i.comments ++ [⟨cid, body, now, []⟩], updated_at := now }
          else i),
        nextComment := srv.nextComment + 1 })

/-- `GET /issues/{n}/comments`; 404 on a missing issue. -/
def Server.listComments (srv : Server) (n : Nat) : Except String (List GComment) :=
  match srv.getIssue n with
  | none => Except.error "GitHub API error: 404"
  | some i => Except.ok i.comments

/-- `POST /issues/comments/{cid}/reactions`; 404 on a missing comment. -/
def Server.addReaction (srv : Server) (cid : Nat) (content : String) :
    Except String Server :=
  if srv.issues.any (fun i => i.comments.any (fun c => c.id == cid)) then
    Except.ok { srv with
      issues := srv.issues.map (fun i =>
        { i with comments := i.comments.map (fun c =>
            if c.id == cid then { c with reactions := c.reactions ++ [content] } else c) }) }
  else Except.error "GitHub API error: 404"

/-- `PATCH /issues/{n}` with a new state; 404 on a missing issue. -/
def Server.patchState (srv : Server) (n : Nat) (toOpen : Bool) (now : Nat) :
    Except String Server :=
  match srv.getIssue n with
  | none => Except.error "GitHub API error: 404"
  | some _ =>
    Except.ok { srv with
      issues := srv.issues.map (fun i =>
        if i.number == n then { i with isOpen := toOpen, updated_at := now } else i) }

/-- One entry of the in-memory cache (`objectId → issueNumber` plus
timestamps), as stored by `CacheManager`. -/
structure CacheEntry where
  issueNumber : Nat
  lastAccessed : Nat
  createdAt : Nat
  updatedAt : Nat
deriving Repr

/-- Remove the first occurrence of `a` (JS `indexOf` + `splice(idx, 1)`;
a missing element leaves the list unchanged). -/
def removeFirst (l : List String) (a : String) : List String :=
  match l with
  | [] => []
  | b :: bs => if b == a then bs else b :: removeFirst bs a

/-- `Map.set`: update the binding in place when the key is present,
append it otherwise. -/
def mapSet (m : List (String × CacheEntry)) (k : String) (v : CacheEntry) :
    List (String × CacheEntry) :=
  if m.any (fun p => p.1 == k) then
    m.map (fun p => if p.1 == k then (k, v) else p)
  else m ++ [(k, v)]

/-- `Map.delete`: drop the binding of `k`. -/
def mapDelete (m : List (String × CacheEntry)) (k : String) :
    List (String × CacheEntry) :=
  m.eraseP (fun p => p.1 == k)

/-- `CacheManager`: bounded TTL cache with a most-recent-first recency
list (`accessOrder`). -/
structure Cache where
  entries : List (String × CacheEntry)
  maxSize : Nat
  ttl : Nat
  accessOrder : List String
deriving Repr

def Cache.empty (maxSize ttl : Nat) : Cache :=
  { entries := [], maxSize := maxSize, ttl := ttl, accessOrder := [] }

def Cache.removeFromAccessOrder (c : Cache) (id : String) : Cache :=
  { c with accessOrder := removeFirst c.accessOrder id }

def Cache.updateAccessOrder (c : Cache) (id : String) : Cache :=
  { c with accessOrder := id :: removeFirst c.accessOrder id }

/-- `CacheManager.get`: a hit whose age exceeds `ttl` is evicted and
reported absent; a live hit refreshes `lastAccessed` and recency and
returns the issue number. -/
def Cache.get (c : Cache) (now : Nat) (id : String) : Option Nat × Cache :=
  match c.entries.find? (fun p => p.1 == id) with
  | none => (none, c)
  | some (_, e) =>
    if now - e.lastAccessed > c.ttl then
      (none, { c with entries := mapDelete c.entries id,
                      accessOrder := removeFirst c.accessOrder id })
    else
      (some e.issueNumber,
       { c with entries := mapSet c.entries id { e with lastAccessed := now },
                accessOrder := id :: removeFirst c.accessOrder id })

/-- `CacheManager.remove`. -/
def Cache.remove (c : Cache) (id : String) : Cache :=
  { c with entries := mapDelete c.entries id,
           accessOrder := removeFirst c.accessOrder id }

/-- `CacheManager.set`: at capacity, and only when the inserted id is not
already present, the tail of the recency list is evicted first — guarded
by JS truthiness of the tail (`s && (...)`), so an empty-string id at the
tail is never evicted. -/
def Cache.set (c : Cache) (now : Nat) (id : String) (num : Nat)
    (createdAt updatedAt : Nat) : Cache :=
  let c1 :=
    if c.entries.length ≥ c.maxSize && !(c.entries.any (fun p => p.1 == id)) then
      match c.accessOrder.getLast? with
      | some s => if s != "" then c.remove s else c
      | none => c
    else c
  { c1 with
    entries := mapSet c1.entries id ⟨num, now, createdAt, updatedAt⟩,
    accessOrder := id :: removeFirst c1.accessOrder id }

/-- `CacheManager.shouldRefresh`. -/
def Cache.shouldRefresh (c : Cache) (id : String) (observedUpdatedAt : Nat) : Bool :=
  match c.entries.find? (fun p => p.1 == id) with
  | none => true
  | some (_, e) => observedUpdatedAt > e.updatedAt

/-- The client's credential: `null` (public mode), `undefined`, or a
string token (possibly empty). -/
inductive Token where
  | null : Token
  | undef : Token
  | str : String → Token
deriving Repr, DecidableEq

/-- JS truthiness of the token (`!this.token` gates mutations). -/
def Token.truthy : Token → Bool
  | Token.str s => s != ""
  | _ => false

/-- The label / reaction configuration, with the constructor defaults. -/
structure Config where
  baseLabel : String
  uidPre : String
  reactionProcessed : String
  reactionInitialState : String
deriving Repr

def defaultConfig : Config :=
  { baseLabel := "stored-object", uidPre := "UID:",
    reactionProcessed := "+1", reactionInitialState := "rocket" }

/-- `GitHubStoreClient` state. -/
structure Client where
  token : Token
  config : Config
  cache : Cache
deriving Repr

/-- The whole world a client operation acts on: client plus service. -/
structure W where
  client : Client
  srv : Server
deriving Repr

def W.withCache (w : W) (c : Cache) : W :=
  { w with client := { w.client with cache := c } }

/-- `meta` of a stored object, as assembled by the client. -/
structure ObjMeta where
  objectId : String
  label : String
  issueNumber : Nat
  createdAt : Nat
  updatedAt : Nat
  version : Nat
deriving Repr

structure StoredObj where
  meta : ObjMeta
  data : J
deriving Repr

/-- `isPublic()`: strict equality with `null` only. -/
def isPublic (c : Client) : Bool :=
  c.token == Token.null

/-- `_verifyIssueLabels`: the label set need only intersect
`{baseLabel, uidPre ++ id}` — a partial match passes. -/
def verifyIssueLabels (cfg : Config) (iss : GIssue) (id : String) : Bool :=
  iss.labels.any (fun s => s == cfg.baseLabel || s == cfg.uidPre ++ id)

/-- `createCommentPayload`: the update envelope `{_data, _meta, type?}`. -/
def createCommentPayload (data : J) (issueNumber : Nat) (now : Nat)
    (ty : Option String) : J :=
  let metaJ := J.obj [("client_version", J.str "0.11.1"),
                      ("timestamp", J.num (Int.ofNat now)),
                      ("update_mode", J.str "append"),
                      ("issue_number", J.num (Int.ofNat issueNumber))]
  match ty with
  | some t => J.obj [("_data", data), ("_meta", metaJ), ("type", J.str t)]
  | none => J.obj [("_data", data), ("_meta", metaJ)]

/-- `_getVersion`: one comment-list round trip; version is the comment
count plus one. -/
def getVersion (srv : Server) (n : Nat) : Except String Nat :=
  match srv.getIssue n with
  | none => Except.error "GitHub API error: 404"
  | some i => Except.ok (i.comments.length + 1)

/-- JS `String.prototype.startsWith`, as a character-prefix test. -/
def strStartsWith (s pre : String) : Bool :=
  pre.data.isPrefixOf s.data

/-- `_getObjectIdFromLabels`: first label that differs from the base label
and starts with the UID marker, with the marker stripped (`none` models
the thrown NotFound error). -/
def getObjectIdFromLabels (cfg : Config) (iss : GIssue) : Option String :=
  (iss.labels.find? (fun l => l != cfg.baseLabel && strStartsWith l cfg.uidPre)).map
    (fun l => l.drop cfg.uidPre.length)

/-- `getObject`: cache-hit path with label verification and one fallback
to the closed-state label query; assembles the stored object with a
read-time computed version and refreshes the cache. -/
def getObject (w : W) (now : Nat) (id : String) : Except String (StoredObj × W) :=
  let cfg := w.client.config
  let (hit, c1) := w.client.cache.get now id
  let (found, c2) :=
    match hit with
    | none => ((none : Option GIssue), c1)
    | some num =>
      match w.srv.getIssue num with
      | none => (none, c1.remove id)
      | some iss =>
        if verifyIssueLabels cfg iss id then (some iss, c1) else (none, c1.remove id)
  let resolved : Except String GIssue :=
    match found with
    | some iss => Except.ok iss
    | none =>
      match w.srv.queryIssues ["gh-store", cfg.baseLabel, cfg.uidPre ++ id] (some false) with
      | [] => Except.error ("No object found with ID: " ++ id)
      | iss :: _ => Except.ok iss
  match resolved with
  | Except.error e => Except.error e
  | Except.ok iss =>
    match iss.body with
    | none => Except.error ("Invalid issue data received for ID: " ++ id)
    | some data =>
      match getVersion w.srv iss.number with
      | Except.error e => Except.error e
      | Except.ok v =>
        let c3 := c2.set now id iss.number iss.created_at iss.updated_at
        Except.ok
          ({ meta := { objectId := id, label := cfg.uidPre ++ id,
                       issueNumber := iss.number, createdAt := iss.created_at,
                       updatedAt := iss.updated_at, version := v },
             data := data },
           w.withCache c3)

/-- `createObject`: auth gate, issue creation, cache set, initial-state
comment, two acknowledgement reactions, close; returns `version = 1`. -/
def createObject (w : W) (now : Nat) (id : String) (data : J)
    (extraLabels : List String) : Except String (StoredObj × W) :=
  if !w.client.token.truthy then
    Except.error "Authentication required for creating objects"
  else
    let cfg := w.client.config
    let uidLabel := cfg.uidPre ++ id
    let labels := ["gh-store", cfg.baseLabel, uidLabel] ++ extraLabels
    let (iss, s1) := w.srv.createIssue ("Stored Object: " ++ id) (some data) labels now
    let c1 := w.client.cache.set now id iss.number iss.created_at iss.updated_at
    let payload := createCommentPayload data iss.number now (some "initial_state")
    match s1.addComment iss.number (some payload) now with
    | Except.error e => Except.error e
    | Except.ok (cid, s2) =>
      match s2.addReaction cid cfg.reactionProcessed with
      | Except.error e => Except.error e
      | Except.ok s3 =>
        match s3.addReaction cid cfg.reactionInitialState with
        | Except.error e => Except.error e
        | Except.ok s4 =>
          match s4.patchState iss.number false now with
          | Except.error e => Except.error e
          | Except.ok s5 =>
            Except.ok
              ({ meta := { objectId := id, label := uidLabel,
                           issueNumber := iss.number, createdAt := iss.created_at,
                           updatedAt := iss.updated_at, version := 1 },
                 data := data },
               { client := { w.client with cache := c1 }, srv := s5 })

/-- `updateObject`: auth gate, all-states label query, update comment,
reopen, then an immediate `getObject`. -/
def updateObject (w : W) (now : Nat) (id : String) (data : J) :
    Except String (StoredObj × W) :=
  if !w.client.token.truthy then
    Except.error "Authentication required for updating objects"
  else
    let cfg := w.client.config
    match w.srv.queryIssues [cfg.baseLabel, cfg.uidPre ++ id] none with
    | [] => Except.error ("No object found with ID: " ++ id)
    | iss :: _ =>
      let payload := createCommentPayload data iss.number now none
      match w.srv.addComment iss.number (some payload) now with
      | Except.error e => Except.error e
      | Except.ok (_, s2) =>
        match s2.patchState iss.number true now with
        | Except.error e => Except.error e
        | Except.ok s3 => getObject { w with srv := s3 } now id

/-- JS object-literal accumulation `t[s] = v`: overwrite in place or
append. -/
def upsert (m : List (String × StoredObj)) (k : String) (v : StoredObj) :
    List (String × StoredObj) :=
  if m.any (fun p => p.1 == k) then
    m.map (fun p => if p.1 == k then (k, v) else p)
  else m ++ [(k, v)]

/-- Per-issue body of the `listAll` loop: skip `archived`, resolve the id
from labels, parse the body, compute the version; any failure skips the
issue (`catch { continue }`).  Note `label := oid` — the bare id, not the
UID-qualified label. -/
def listAllLoop (srv : Server) (cfg : Config) (acc : List (String × StoredObj)) :
    List GIssue → List (String × StoredObj)
  | [] => acc
  | iss :: rest =>
    if iss.labels.contains "archived" then listAllLoop srv cfg acc rest
    else
      match getObjectIdFromLabels cfg iss, iss.body with
      | some oid, some data =>
        match getVersion srv iss.number with
        | Except.ok v =>
          listAllLoop srv cfg
            (upsert acc oid
              { meta := { objectId := oid, label := oid, issueNumber := iss.number,
                          createdAt := iss.created_at, updatedAt := iss.updated_at,
                          version := v },
                data := data }) rest
        | Except.error _ => listAllLoop srv cfg acc rest
      | _, _ => listAllLoop srv cfg acc rest

/-- `listAll`: closed issues bearing the base label, assembled per issue. -/
def listAll (w : W) : List (String × StoredObj) :=
  listAllLoop w.srv w.client.config []
    (w.srv.queryIssues [w.client.config.baseLabel] (some false))

/-- Per-issue body of the `listUpdatedSince` loop: like `listAll` but the
issue is kept only when its `updated_at` is strictly after `ts`
(client-side re-check on top of the server `since` filter). -/
def sinceLoop (srv : Server) (cfg : Config) (ts : Nat)
    (acc : List (String × StoredObj)) : List GIssue → List (String × StoredObj)
  | [] => acc
  | iss :: rest =>
    if iss.labels.contains "archived" then sinceLoop srv cfg ts acc rest
    else
      match getObjectIdFromLabels cfg iss, iss.body with
      | some oid, some data =>
        if ts < iss.updated_at then
          match getVersion srv iss.number with
          | Except.ok v =>
            sinceLoop srv cfg ts
              (upsert acc oid
                { meta := { objectId := oid, label := oid, issueNumber := iss.number,
                            createdAt := iss.created_at, updatedAt := iss.updated_at,
                            version := v },
                  data := data }) rest
          | Except.error _ => sinceLoop srv cfg ts acc rest
        else sinceLoop srv cfg ts acc rest
      | _, _ => sinceLoop srv cfg ts acc rest

/-- `listUpdatedSince(timestamp)`. -/
def listUpdatedSince (w : W) (ts : Nat) : List (String × StoredObj) :=
  sinceLoop w.srv w.client.config ts []
    (w.srv.querySince [w.client.config.baseLabel] (some false) ts)

/-- One decoded history entry (`{timestamp, type, data, commentId}`; the
synthesized `_meta` block is computed by the source but not included in
the pushed entry). -/
structure HistEntry where
  timestamp : Nat
  etype : J
  data : Option J
  commentId : Nat
deriving Repr

/-- Decoding of one parsed comment body inside `getObjectHistory`,
returning `(type, data)`.  The three accepted shapes: envelope with
`_data` (type from a truthy `type` field, else "update"); bare object
with `type === "initial_state"` (data from the `data` field); anything
else verbatim with type "update".  `JSON null` hits the JS
`"_data" in null` TypeError, which the surrounding catch swallows —
modelled as `none`. -/
def decodeParsed (n : J) : Option (J × Option J) :=
  match n with
  | J.null => none
  | J.obj fs =>
    match jsGet fs "_data" with
    | some v =>
      let t := match jsGet fs "type" with
               | some tv => if jTruthy tv then tv else J.str "update"
               | none => J.str "update"
      some (t, some v)
    | none =>
      match jsGet fs "type" with
      | some tv =>
        if jIsStr tv "initial_state" then some (J.str "initial_state", jsGet fs "data")
        else some (J.str "update", some n)
      | none => some (J.str "update", some n)
  | _ => some (J.str "update", some n)

/-- Decoding of one comment: an unparseable body (`none`) or a body the
decoder throws on is skipped. -/
def decodeEntry (c : GComment) : Option HistEntry :=
  match c.body with
  | none => none
  | some n => (decodeParsed n).map (fun p => ⟨c.created_at, p.1, p.2, c.id⟩)

/-- `getObjectHistory`: all-states label query, then a best-effort decode
of every comment in server order. -/
def getObjectHistory (w : W) (id : String) : Except String (List HistEntry) :=
  let cfg := w.client.config
  match w.srv.queryIssues [cfg.baseLabel, cfg.uidPre ++ id] none with
  | [] => Except.error ("No object found with ID: " ++ id)
  | iss :: _ =>
    match w.srv.listComments iss.number with
    | Except.error e => Except.error e
    | Except.ok cs => Except.ok (cs.filterMap decodeEntry)

/-- A freshly constructed client (constructor defaults) against an empty
repository. -/
def freshW (t : Token) : W :=
  { client := { token := t, config := defaultConfig, cache := Cache.empty 1000 3600000 },
    srv := { issues := [], nextIssue := 1, nextComment := 1 } }

/-- The world state right after `createObject` on a fresh client, exposed
parametrically: one backing issue number 1 with comment list `cs`, open
flag `b`, body `d0`, and the comment counter at `nc`.  `createObject`
lands exactly on this shape and every `updateObject` stays on it. -/
def mkW (id : String) (d0 : J) (cs : List GComment) (b : Bool) (nc : Nat) : W :=
  { client :=
      { token := Token.str "t", config := defaultConfig,
        cache := { entries := [(id, ⟨1, 0, 0, 0⟩)], maxSize := 1000,
                   ttl := 3600000, accessOrder := [id] } },
    srv :=
      { issues := [{ number := 1, title := "Stored Object: " ++ id, body := some d0,
                     labels := ["gh-store", "stored-object", "UID:" ++ id],
                     isOpen := b, created_at := 0, updated_at := 0, comments := cs }],
        nextIssue := 2, nextComment := nc } }

/-- The initial-state comment written by `createObject` (comment id 1,
both acknowledgement reactions attached). -/
def initComment (d0 : J) : GComment :=
  ⟨1, some (createCommentPayload d0 1 0 (some "initial_state")), 0, ["+1", "rocket"]⟩

/-- The update comment written by the `k`-th `updateObject`. -/
def updComment (cid : Nat) (d : J) : GComment :=
  ⟨cid, some (createCommentPayload d 1 0 none), 0, []⟩

/-- Sequencing harness for repeated `updateObject` calls on one id,
collecting the `version` of each returned object. -/
def updateVersions (w : W) (now : Nat) (id : String) :
    List J → Except String (List Nat × W)
  | [] => Except.ok ([], w)
  | d :: ds =>
    match updateObject w now id d with
    | Except.error e => Except.error e
    | Except.ok (o, w1) =>
      match updateVersions w1 now id ds with
      | Except.error e => Except.error e
      | Except.ok (vs, w2) => Except.ok (o.meta.version :: vs, w2)

/-- Sequencing harness for repeated `Cache.set` calls with fresh ids. -/
def setAll (c : Cache) (now : Nat) : List String → Cache
  | [] => c
  | id :: ids => setAll (c.set now id 0 0 0) now ids

theorem uid_append_data (id : String) :
    ("UID:" ++ id).data = 'U' :: 'I' :: 'D' :: ':' :: id.data := by
  cases id with
  | mk l => rfl

theorem uid_append_beq_false (id t : String) (h : t.data.head? ≠ some 'U') :
    (("UID:" ++ id) == t) = false := by
  refine beq_eq_false_iff_ne.mpr (fun he => h ?_)
  rw [← he, uid_append_data]
  rfl

theorem beq_uid_append_false (id t : String) (h : t.data.head? ≠ some 'U') :
    (t == ("UID:" ++ id)) = false := by
  refine beq_eq_false_iff_ne.mpr (fun he => h ?_)
  rw [he, uid_append_data]
  rfl

@[simp] theorem uid_append_ne_gh (id : String) :
    (("UID:" ++ id) == "gh-store") = false :=
  uid_append_beq_false id _ (by decide)

@[simp] theorem uid_append_ne_so (id : String) :
    (("UID:" ++ id) == "stored-object") = false :=
  uid_append_beq_false id _ (by decide)

@[simp] theorem gh_ne_uid_append (id : String) :
    (("gh-store" : String) == ("UID:" ++ id)) = false :=
  beq_uid_append_false id _ (by decide)

@[simp] theorem so_ne_uid_append (id : String) :
    (("stored-object" : String) == ("UID:" ++ id)) = false :=
  beq_uid_append_false id _ (by decide)

theorem find?_map_replace (m : List (String × CacheEntry)) (k : String) (v : CacheEntry)
    (h : m.any (fun p => p.1 == k) = true) :
    (m.map (fun p => if p.1 == k then (k, v) else p)).find? (fun p => p.1 == k) =
      some (k, v) := by
  induction m with
  | nil => simp at h
  | cons a as ih =>
    simp only [List.any_cons, Bool.or_eq_true] at h
    by_cases ha : (a.1 == k) = true
    · simp [List.find?, ha]
    · have h' : as.any (fun p => p.1 == k) = true := by
        rcases h with h | h
        · exact absurd h ha
        · exact h
      simp only [List.map_cons, List.find?, ha, if_false, Bool.false_eq_true]
      exact ih h'

theorem find?_append_single (m : List (String × CacheEntry)) (k : String) (v : CacheEntry)
    (h : m.any (fun p => p.1 == k) = false) :
    (m ++ [(k, v)]).find? (fun p => p.1 == k) = some (k, v) := by
  induction m with
  | nil => simp [List.find?]
  | cons a as ih =>
    rw [List.any_cons, Bool.or_eq_false_iff] at h
    simp only [List.cons_append, List.find?, h.1]
    exact ih h.2

theorem find?_mapSet (m : List (String × CacheEntry)) (k : String) (v : CacheEntry) :
    (mapSet m k v).find? (fun p => p.1 == k) = some (k, v) := by
  unfold mapSet
  cases hany : m.any (fun p => p.1 == k) with
  | true => simpa [hany] using find?_map_replace m k v hany
  | false => simpa [hany] using find?_append_single m k v hany

theorem map_fst_mapSet_of_any (m : List (String × CacheEntry)) (k : String) (v : CacheEntry)
    (h : m.any (fun p => p.1 == k) = true) :
    (mapSet m k v).map Prod.fst = m.map Prod.fst := by
  unfold mapSet
  rw [h, if_pos rfl, List.map_map]
  refine List.map_congr_left (fun p _ => ?_)
  by_cases hp : p.1 = k
  · simp [hp]
  · simp [hp]

theorem any_of_find?_some (m : List (String × CacheEntry)) (k : String) (p : String × CacheEntry)
    (h : m.find? (fun q => q.1 == k) = some p) :
    m.any (fun q => q.1 == k) = true := by
  have hm := List.mem_of_find?_eq_some h
  have hp := List.find?_some h
  exact List.any_eq_true.mpr ⟨p, hm, hp⟩

theorem find?_mapDelete_of_nodup (m : List (String × CacheEntry)) (k : String)
    (h : (m.map Prod.fst).Nodup) :
    (mapDelete m k).find? (fun p => p.1 == k) = none := by
  induction m with
  | nil => rfl
  | cons a as ih =>
    rw [List.map_cons, List.nodup_cons] at h
    unfold mapDelete
    rw [List.eraseP_cons]
    by_cases ha : (a.1 == k) = true
    · rw [ha]
      refine List.find?_eq_none.mpr (fun x hx => ?_)
      intro hxk
      exact h.1 (by
        rw [eq_of_beq ha] at h ⊢
        rw [← eq_of_beq hxk]
        exact List.mem_map.mpr ⟨x, hx, rfl⟩)
    · rw [Bool.not_eq_true] at ha
      rw [ha]
      simp only [List.find?, ha]
      exact ih h.2

theorem mem_upsert (m : List (String × StoredObj)) (k : String) (v : StoredObj)
    (p : String × StoredObj) (h : p ∈ upsert m k v) : p ∈ m ∨ p = (k, v) := by
  unfold upsert at h
  by_cases hany : m.any (fun q => q.1 == k) = true
  · rw [if_pos hany] at h
    rcases List.mem_map.mp h with ⟨q, hq, hqe⟩
    by_cases hqk : (q.1 == k) = true
    · rw [if_pos hqk] at hqe
      exact Or.inr hqe.symm
    · rw [if_neg hqk] at hqe
      exact Or.inl (hqe ▸ hq)
  · rw [if_neg hany] at h
    rcases List.mem_append.mp h with h | h
    · exact Or.inl h
    · exact Or.inr (List.mem_singleton.mp h)

theorem getObject_mkW (id : String) (d0 : J) (cs : List GComment) (b : Bool) (nc : Nat) :
    getObject (mkW id d0 cs b nc) 0 id =
      Except.ok ({ meta := { objectId := id, label := "UID:" ++ id, issueNumber := 1,
                             createdAt := 0, updatedAt := 0, version := cs.length + 1 },
                   data := d0 }, mkW id d0 cs b nc) := by
  simp [getObject, mkW, Cache.get, Cache.set, mapSet, removeFirst, Server.getIssue,
        verifyIssueLabels, getVersion, defaultConfig, W.withCache, List.find?]

theorem updateObject_mkW (id : String) (d0 d : J) (cs : List GComment) (b : Bool) (nc : Nat) :
    updateObject (mkW id d0 cs b nc) 0 id d =
      Except.ok ({ meta := { objectId := id, label := "UID:" ++ id, issueNumber := 1,
                             createdAt := 0, updatedAt := 0, version := cs.length + 2 },
                   data := d0 }, mkW id d0 (cs ++ [updComment nc d]) true (nc + 1)) := by
  simp [updateObject, mkW, Token.truthy, Server.queryIssues, GIssue.hasAllLabels,
        List.contains, List.elem, Server.addComment, Server.getIssue, Server.patchState,
        getObject, Cache.get, Cache.set, mapSet, removeFirst, verifyIssueLabels,
        getVersion, defaultConfig, W.withCache, updComment, List.find?]

theorem createObject_fresh (id : String) (d : J) :
    createObject (freshW (Token.str "t")) 0 id d [] =
      Except.ok ({ meta := { objectId := id, label := "UID:" ++ id, issueNumber := 1,
                             createdAt := 0, updatedAt := 0, version := 1 },
                   data := d }, mkW id d [initComment d] false 2) := rfl

theorem updateVersions_mkW (id : String) (d0 : J) (ds : List J) :
    ∀ (cs : List GComment) (b : Bool) (nc : Nat),
      ∃ (cs' : List GComment) (b' : Bool),
        updateVersions (mkW id d0 cs b nc) 0 id ds =
          Except.ok ((List.range ds.length).map (fun i => cs.length + 2 + i),
                     mkW id d0 cs' b' (nc + ds.length)) := by
  induction ds with
  | nil =>
    intro cs b nc
    exact ⟨cs, b, by simp [updateVersions]⟩
  | cons d ds ih =>
    intro cs b nc
    obtain ⟨cs', b', hrec⟩ := ih (cs ++ [updComment nc d]) true (nc + 1)
    refine ⟨cs', b', ?_⟩
    simp only [updateVersions, updateObject_mkW, hrec]
    have hn : nc + 1 + ds.length = nc + (ds.length + 1) := by omega
    rw [hn, List.length_cons, List.range_succ_eq_map]
    simp only [List.map_cons, List.map_map, List.length_append, List.length_cons,
               List.length_nil, Nat.add_zero]
    refine congrArg Except.ok ?_
    refine congrArg (fun l => (l, mkW id d0 cs' b' (nc + (ds.length + 1)))) ?_
    refine congrArg (fun l => (cs.length + 2) :: l) ?_
    exact List.map_congr_left (fun i _ => by simp [Function.comp]; omega)

/-- C1 counterexample: on a fresh store, `createObject("x", 1)` immediately
followed by `getObject("x")` returns `version = 2`, not `version = 1` as
claimed — the initial-state comment posted by `createObject` already counts
as one event-log entry, and `getObject` computes version as entries + 1. -/
theorem c1_counterexample :
    ((createObject (freshW (Token.str "t")) 0 "x" (J.num 1) []).bind
        (fun p => getObject p.2 0 "x")).toOption.map (fun p => p.1.meta.version) = some 2
    ∧ (2 : Nat) ≠ 1 :=
  ⟨rfl, by decide⟩

/-- C1 (amended): for any ID `id` and data `d`, `createObject(id, d)` on a
fresh store followed immediately by `getObject(id)` returns data deep-equal
to `d` and `version = 2`, and the version equals the number of event-log
entries (comments) on the backing issue (here 1, the initial-state comment)
plus 1 at the time of observation. -/
theorem c1_read_after_write (id : String) (d : J) :
    ((createObject (freshW (Token.str "t")) 0 id d []).bind
        (fun p => getObject p.2 0 id)).toOption.map
      (fun p => (p.1.data, p.1.meta.version,
                 (p.2.srv.getIssue p.1.meta.issueNumber).map (fun i => i.comments.length))) =
      some (d, 2, some 1) := by
  rw [createObject_fresh]
  show (getObject (mkW id d [initComment d] false 2) 0 id).toOption.map _ = _
  rw [getObject_mkW]
  rfl

/-- The data values of the C2 scenario. -/
def dX : J := J.obj [("title", J.str "X")]

def dUp : J := J.obj [("title", J.str "X"), ("rating", J.str "up")]

def dDn : J := J.obj [("title", J.str "X"), ("rating", J.str "down")]

/-- The C2 scenario run: create `"paper:42"` with `{title:"X"}`, update
twice, then read the history and the object. -/
def scenarioRun : Except String (List HistEntry × StoredObj) :=
  (createObject (freshW (Token.str "t")) 0 "paper:42" dX []).bind (fun p =>
    (updateObject p.2 0 "paper:42" dUp).bind (fun q =>
      (updateObject q.2 0 "paper:42" dDn).bind (fun r =>
        (getObjectHistory r.2 "paper:42").bind (fun h =>
          (getObject r.2 0 "paper:42").map (fun g => (h, g.1))))))

/-- C2 counterexample: in the scenario, the final `getObject` returns the
creation snapshot `{title:"X"}`, not the last update's payload
`{title:"X", rating:"down"}` — updates land only as comments and the issue
body is never rewritten. -/
theorem c2_counterexample :
    scenarioRun.toOption.map (fun p => p.2.data) = some dX ∧ dX ≠ dDn :=
  ⟨rfl, by simp [dX, dDn]⟩

/-- C2 (amended): the scenario yields `getObjectHistory` of length 3 with
types `["initial_state", "update", "update"]`, and the final `getObject`
returns data equal to the creation snapshot `{title:"X"}` (the body written
at creation), not the last update's payload. -/
theorem c2_scenario :
    scenarioRun.toOption.map (fun p => (p.1.map (fun e => e.etype), p.2.data)) =
      some ([J.str "initial_state", J.str "update", J.str "update"], dX) := rfl

/-- C4 counterexample: after `createObject`, a single `updateObject` call
already returns version 3 — the claimed sequence `1, 2, 3, …` would demand
version 1 for the first update. -/
theorem c4_counterexample :
    ((createObject (freshW (Token.str "t")) 0 "x" (J.num 0) []).bind
        (fun p => updateVersions p.2 0 "x" [J.num 1])).toOption.map Prod.fst = some [3]
    ∧ ([3] : List Nat) ≠ [1] :=
  ⟨rfl, by decide⟩

/-- C4 (amended): for every ID and every sequence of payloads, repeated
`updateObject(id, d_i)` calls after `createObject(id, d_0)` produce the
strictly increasing, gap-free version sequence `3, 4, 5, …` (each update
appends exactly one event-log comment and version is read back as comment
count + 1; the sequence starts at 3, not 1, because creation already wrote
one comment and the update's own comment lands before the read). -/
theorem c4_version_monotonic (id : String) (d0 : J) (ds : List J) :
    ((createObject (freshW (Token.str "t")) 0 id d0 []).bind
        (fun p => updateVersions p.2 0 id ds)).toOption.map Prod.fst =
      some ((List.range ds.length).map (fun i => i + 3)) := by
  rw [createObject_fresh]
  obtain ⟨cs', b', h⟩ := updateVersions_mkW id d0 ds [initComment d0] false 2
  show (updateVersions (mkW id d0 [initComment d0] false 2) 0 id ds).toOption.map _ = _
  rw [h]
  refine congrArg some (List.map_congr_left fun i _ => ?_)
  simp
  omega

theorem any_keys_false (m : List (String × CacheEntry)) (k : String)
    (h : k ∉ m.map Prod.fst) : m.any (fun p => p.1 == k) = false := by
  rw [← Bool.not_eq_true, List.any_eq_true]
  rintro ⟨p, hp, hpk⟩
  exact h (List.mem_map.mpr ⟨p, hp, eq_of_beq hpk⟩)

theorem removeFirst_of_not_mem (l : List String) (a : String) (h : a ∉ l) :
    removeFirst l a = l := by
  induction l with
  | nil => rfl
  | cons b bs ih =>
    have hb : (b == a) = false :=
      beq_eq_false_iff_ne.mpr (fun e => h (e ▸ List.mem_cons_self b bs))
    rw [removeFirst, if_neg (by simp [hb]), ih (fun hm => h (List.mem_cons_of_mem b hm))]

theorem removeFirst_append_of_not_mem (ll lr : List String) (a : String) (h : a ∉ ll) :
    removeFirst (ll ++ lr) a = ll ++ removeFirst lr a := by
  induction ll with
  | nil => rfl
  | cons b bs ih =>
    have hb : (b == a) = false :=
      beq_eq_false_iff_ne.mpr (fun e => h (e ▸ List.mem_cons_self b bs))
    rw [List.cons_append, removeFirst, if_neg (by simp [hb]),
        ih (fun hm => h (List.mem_cons_of_mem b hm)), List.cons_append]

theorem removeFirst_reverse_head (s : String) (t : List String) (h : s ∉ t) :
    removeFirst ((s :: t).reverse) s = t.reverse := by
  rw [List.reverse_cons,
      removeFirst_append_of_not_mem t.reverse [s] s (by simpa using h)]
  simp [removeFirst]

theorem mapDelete_head (m : List (String × CacheEntry)) (s : String) (t : List String)
    (h : m.map Prod.fst = s :: t) : mapDelete m s = m.tail := by
  cases m with
  | nil => simp at h
  | cons q m' =>
    rw [List.map_cons, List.cons.injEq] at h
    unfold mapDelete
    rw [List.eraseP_cons, h.1]
    simp

/-- The cache-state invariant preserved by distinct, non-empty-id
insertions: `l` lists the keys in insertion order (oldest first). -/
structure CacheShape (c : Cache) (l : List String) : Prop where
  keys : c.entries.map Prod.fst = l
  order : c.accessOrder = l.reverse
  nodup : l.Nodup
  noEmpty : "" ∉ l
  bounded : l.length ≤ c.maxSize

theorem set_eq_evict (c : Cache) (now num ca ua : Nat) (ids : String) (s : String)
    (hcap : c.maxSize ≤ c.entries.length)
    (hany : c.entries.any (fun p => p.1 == ids) = false)
    (hgl : c.accessOrder.getLast? = some s) (hs : s ≠ "") :
    c.set now ids num ca ua =
      { entries := mapSet (c.remove s).entries ids ⟨num, now, ca, ua⟩,
        maxSize := c.maxSize, ttl := c.ttl,
        accessOrder := ids :: removeFirst (c.remove s).accessOrder ids } := by
  unfold Cache.set
  rw [if_pos (by simp [hany, hcap]), hgl]
  show (let c1 := if (s != "") = true then c.remove s else c;
    ({ entries := mapSet c1.entries ids ⟨num, now, ca, ua⟩, maxSize := c1.maxSize,
       ttl := c1.ttl, accessOrder := ids :: removeFirst c1.accessOrder ids } : Cache)) = _
  rw [if_pos (by simp [hs] : (s != "") = true)]
  rfl

theorem set_eq_plain (c : Cache) (now num ca ua : Nat) (ids : String)
    (hcap : ¬ c.maxSize ≤ c.entries.length) :
    c.set now ids num ca ua =
      { entries := mapSet c.entries ids ⟨num, now, ca, ua⟩,
        maxSize := c.maxSize, ttl := c.ttl,
        accessOrder := ids :: removeFirst c.accessOrder ids } := by
  unfold Cache.set
  rw [if_neg (by simp [hcap])]

theorem mapSet_absent (m : List (String × CacheEntry)) (k : String) (v : CacheEntry)
    (h : m.any (fun p => p.1 == k) = false) : mapSet m k v = m ++ [(k, v)] := by
  unfold mapSet
  rw [if_neg (by simp [h])]

theorem set_maxSize (c : Cache) (now num ca ua : Nat) (ids : String) :
    (c.set now ids num ca ua).maxSize = c.maxSize := by
  simp only [Cache.set]
  split
  · split
    · split
      · rfl
      · rfl
    · rfl
  · rfl

theorem cacheShape_set (c : Cache) (l : List String) (h : CacheShape c l)
    (ids : String) (hid : ids ∉ l) (hne : ids ≠ "") (hmax : 1 ≤ c.maxSize)
    (now num ca ua : Nat) :
    CacheShape (c.set now ids num ca ua)
      (if c.maxSize ≤ l.length then l.tail ++ [ids] else l ++ [ids]) := by
  have hlen : c.entries.length = l.length := by rw [← h.keys, List.length_map]
  have hany : c.entries.any (fun p => p.1 == ids) = false :=
    any_keys_false c.entries ids (h.keys ▸ hid)
  by_cases hcap : c.maxSize ≤ l.length
  · obtain ⟨s, t, rfl⟩ : ∃ s t, l = s :: t := by
      cases l with
      | nil =>
        simp at hcap
        omega
      | cons s t => exact ⟨s, t, rfl⟩
    have hsne : s ≠ "" := fun e => h.noEmpty (e ▸ List.mem_cons_self s t)
    have hst : s ∉ t := (List.nodup_cons.mp h.nodup).1
    have hgl : c.accessOrder.getLast? = some s := by
      rw [h.order, List.reverse_cons, List.getLast?_concat]
    have hrm_entries : (c.remove s).entries = c.entries.tail := by
      show mapDelete c.entries s = c.entries.tail
      exact mapDelete_head c.entries s t h.keys
    have hrm_order : (c.remove s).accessOrder = t.reverse := by
      show removeFirst c.accessOrder s = t.reverse
      rw [h.order]
      exact removeFirst_reverse_head s t hst
    have htail_keys : c.entries.tail.map Prod.fst = t := by
      have hk := h.keys
      cases hm : c.entries with
      | nil => rw [hm] at hk; simp at hk
      | cons q m' =>
        rw [hm, List.map_cons, List.cons.injEq] at hk
        simpa [hm] using hk.2
    have hidt : ids ∉ t := fun hm => hid (List.mem_cons_of_mem s hm)
    have hany' : c.entries.tail.any (fun p => p.1 == ids) = false :=
      any_keys_false _ ids (htail_keys ▸ hidt)
    rw [set_eq_evict c now num ca ua ids s (by omega) hany hgl hsne, if_pos hcap]
    refine ⟨?_, ?_, ?_, ?_, ?_⟩
    · show (mapSet (c.remove s).entries ids ⟨num, now, ca, ua⟩).map Prod.fst = _
      rw [hrm_entries, mapSet_absent _ _ _ hany', List.map_append, htail_keys]
      rfl
    · show ids :: removeFirst (c.remove s).accessOrder ids = _
      rw [hrm_order, removeFirst_of_not_mem _ _ (by simpa using hidt)]
      simp
    · exact List.Nodup.append (List.nodup_cons.mp h.nodup).2
        (List.nodup_singleton ids) (by simpa using hidt)
    · intro hm
      rcases List.mem_append.mp hm with hm | hm
      · exact h.noEmpty (List.mem_cons_of_mem s hm)
      · exact hne (List.mem_singleton.mp hm).symm
    · show (t ++ [ids]).length ≤ c.maxSize
      have hb : t.length + 1 ≤ c.maxSize := by
        have := h.bounded
        simpa using this
      simpa using hb
  · rw [set_eq_plain c now num ca ua ids (by omega), if_neg hcap]
    refine ⟨?_, ?_, ?_, ?_, ?_⟩
    · show (mapSet c.entries ids ⟨num, now, ca, ua⟩).map Prod.fst = _
      rw [mapSet_absent _ _ _ hany, List.map_append, h.keys]
      rfl
    · show ids :: removeFirst c.accessOrder ids = _
      rw [h.order, removeFirst_of_not_mem _ _ (by simpa using hid)]
      simp
    · exact List.Nodup.append h.nodup (List.nodup_singleton ids) (by simpa using hid)
    · intro hm
      rcases List.mem_append.mp hm with hm | hm
      · exact h.noEmpty hm
      · exact hne (List.mem_singleton.mp hm).symm
    · show (l ++ [ids]).length ≤ c.maxSize
      simp only [List.length_append, List.length_singleton]
      omega

/-- Key list (insertion order, oldest first) after folding `Cache.set`
over fresh ids. -/
def finalKeys (maxSize : Nat) (l : List String) : List String → List String
  | [] => l
  | a :: rest =>
    finalKeys maxSize (if maxSize ≤ l.length then l.tail ++ [a] else l ++ [a]) rest

theorem setAll_shape (now : Nat) :
    ∀ (ids : List String) (c : Cache) (l : List String), CacheShape c l →
      (∀ i ∈ ids, i ∉ l) → (∀ i ∈ ids, i ≠ "") → ids.Nodup → 1 ≤ c.maxSize →
      CacheShape (setAll c now ids) (finalKeys c.maxSize l ids) := by
  intro ids
  induction ids with
  | nil =>
    intro c l h _ _ _ _
    exact h
  | cons a rest ih =>
    intro c l h hdisj hne hnodup hmax
    have hstep := cacheShape_set c l h a (hdisj a (List.mem_cons_self a rest))
      (hne a (List.mem_cons_self a rest)) hmax now 0 0 0
    have hms := set_maxSize c now 0 0 0 a
    have hdisj' : ∀ i ∈ rest,
        i ∉ (if c.maxSize ≤ l.length then l.tail ++ [a] else l ++ [a]) := by
      intro i hi hmem
      have hia : i ≠ a := by
        intro e
        exact (List.nodup_cons.mp hnodup).1 (e ▸ hi)
      have hil : i ∉ l := hdisj i (List.mem_cons_of_mem a hi)
      by_cases hc : c.maxSize ≤ l.length
      · rw [if_pos hc] at hmem
        rcases List.mem_append.mp hmem with hm | hm
        · exact hil (List.tail_subset l hm)
        · exact hia (List.mem_singleton.mp hm)
      · rw [if_neg hc] at hmem
        rcases List.mem_append.mp hmem with hm | hm
        · exact hil hm
        · exact hia (List.mem_singleton.mp hm)
    have := ih (c.set now a 0 0 0)
      (if c.maxSize ≤ l.length then l.tail ++ [a] else l ++ [a]) hstep hdisj'
      (fun i hi => hne i (List.mem_cons_of_mem a hi))
      (List.nodup_cons.mp hnodup).2 (by rw [hms]; exact hmax)
    rw [hms] at this
    exact this

/-- The suffix of length at most `n`. -/
def lastN (n : Nat) (l : List String) : List String :=
  l.drop (l.length - n)

theorem lastN_cons_of_le (n : Nat) (x : String) (xs : List String) (h : n ≤ xs.length) :
    lastN n (x :: xs) = lastN n xs := by
  unfold lastN
  have he : (x :: xs).length - n = (xs.length - n) + 1 := by
    rw [List.length_cons]
    omega
  rw [he, List.drop_succ_cons]

theorem finalKeys_eq_lastN (maxSize : Nat) (hmax : 1 ≤ maxSize) :
    ∀ (ids l : List String), l.length ≤ maxSize →
      finalKeys maxSize l ids = lastN maxSize (l ++ ids) := by
  intro ids
  induction ids with
  | nil =>
    intro l hl
    unfold finalKeys lastN
    rw [List.append_nil, Nat.sub_eq_zero_of_le hl, List.drop_zero]
  | cons a rest ih =>
    intro l hl
    show finalKeys maxSize (if maxSize ≤ l.length then l.tail ++ [a] else l ++ [a]) rest = _
    by_cases hc : maxSize ≤ l.length
    · rw [if_pos hc]
      obtain ⟨s, t, rfl⟩ : ∃ s t, l = s :: t := by
        cases l with
        | nil =>
          simp at hc
          omega
        | cons s t => exact ⟨s, t, rfl⟩
      have hlt : t.length + 1 ≤ maxSize := by simpa using hl
      rw [show (s :: t).tail = t from rfl, ih (t ++ [a]) (by simpa using hlt)]
      have h1 : (s :: t) ++ (a :: rest) = s :: (t ++ a :: rest) := by simp
      rw [h1, lastN_cons_of_le _ _ _ (by
        have hc' : maxSize ≤ t.length + 1 := by simpa using hc
        simp only [List.length_append, List.length_cons]
        omega)]
      congr 1
      simp
    · rw [if_neg hc, ih (l ++ [a]) (by simp [List.length_append]; omega)]
      congr 1
      simp

/-- C5 counterexample: with `maxSize = 1`, inserting the two distinct IDs
`""` and `"a"` leaves 2 entries, not `maxSize = 1`: the eviction guard
`s && (...)` treats the empty-string id at the recency tail as missing and
skips eviction, so the bound is exceeded. -/
theorem c5_counterexample :
    (setAll (Cache.empty 1 3600000) 0 ["", "a"]).entries.length = 2
    ∧ (["", "a"] : List String).Nodup ∧ (2 : Nat) ≠ 1 :=
  ⟨rfl, by decide, by decide⟩

/-- C5 (amended): for every `k ≥ 0` and `maxSize ≥ 1`, inserting
`maxSize + k` distinct non-empty IDs into an initially empty cache leaves
exactly `maxSize` entries, the surviving keys are exactly the last
`maxSize` inserted ids in insertion order, and the evicted ids are exactly
the `k` least-recently-accessed (the first `k` inserted).  The claim as
stated fails when an ID is the empty string (see the counterexample) or
when `maxSize = 0`. -/
theorem c5_cache_bound (maxSize ttl now k : Nat) (ids : List String)
    (hmax : 1 ≤ maxSize) (hnodup : ids.Nodup) (hne : "" ∉ ids)
    (hlen : ids.length = maxSize + k) :
    (setAll (Cache.empty maxSize ttl) now ids).entries.map Prod.fst = ids.drop k
    ∧ (setAll (Cache.empty maxSize ttl) now ids).entries.length = maxSize
    ∧ ∀ i ∈ ids.take k, i ∉ (setAll (Cache.empty maxSize ttl) now ids).entries.map Prod.fst := by
  have hshape0 : CacheShape (Cache.empty maxSize ttl) [] :=
    ⟨rfl, rfl, List.nodup_nil, by simp, by simp⟩
  have hsh := setAll_shape now ids (Cache.empty maxSize ttl) [] hshape0
    (by simp) (fun i hi e => hne (e ▸ hi)) hnodup hmax
  have hkeys : (setAll (Cache.empty maxSize ttl) now ids).entries.map Prod.fst
      = finalKeys maxSize [] ids := hsh.keys
  have heq : finalKeys maxSize [] ids = lastN maxSize ids := by
    simpa using finalKeys_eq_lastN maxSize hmax ids [] (by simp)
  have hdrop : lastN maxSize ids = ids.drop k := by
    unfold lastN
    congr 1
    omega
  refine ⟨by rw [hkeys, heq, hdrop], ?_, ?_⟩
  · have h1 : (setAll (Cache.empty maxSize ttl) now ids).entries.length
        = (ids.drop k).length := by
      rw [← List.length_map _ Prod.fst, hkeys, heq, hdrop]
    rw [h1, List.length_drop]
    omega
  · intro i hi
    rw [hkeys, heq, hdrop]
    exact fun hmem => (List.disjoint_take_drop hnodup (le_refl k)) hi hmem

/-- C5 witness: `maxSize = 2`, inserting the 3 distinct non-empty ids
`a, b, c` leaves exactly the 2 most recently inserted, and the least
recently accessed id `a` is evicted. -/
theorem c5_cache_bound_witness :
    (setAll (Cache.empty 2 3600000) 0 ["a", "b", "c"]).entries.map Prod.fst = ["b", "c"]
    ∧ (setAll (Cache.empty 2 3600000) 0 ["a", "b", "c"]).entries.length = 2
    ∧ ∀ i ∈ (["a", "b", "c"] : List String).take 1,
        i ∉ (setAll (Cache.empty 2 3600000) 0 ["a", "b", "c"]).entries.map Prod.fst :=
  c5_cache_bound 2 3600000 0 1 ["a", "b", "c"] (by decide) (by decide) (by decide)
    (by decide)

/-- C6: a `get` on an entry whose age exceeds `ttl` evicts it and reports
absent (even though `remove` was never called); a `get` on a live entry
returns its issue number, refreshes `lastAccessed` to `now` and moves the
id to the front of the recency list. -/
theorem c6_ttl_expiry (c : Cache) (ids : String) (e : CacheEntry) (now : Nat)
    (hfind : c.entries.find? (fun p => p.1 == ids) = some (ids, e))
    (hnodup : (c.entries.map Prod.fst).Nodup) :
    (now - e.lastAccessed > c.ttl →
       (c.get now ids).1 = none
       ∧ (c.get now ids).2.entries.find? (fun p => p.1 == ids) = none)
    ∧ (¬ now - e.lastAccessed > c.ttl →
       (c.get now ids).1 = some e.issueNumber
       ∧ (c.get now ids).2.entries.find? (fun p => p.1 == ids)
           = some (ids, { e with lastAccessed := now })
       ∧ (c.get now ids).2.accessOrder.head? = some ids) := by
  constructor
  · intro hexp
    have h2 := find?_mapDelete_of_nodup c.entries ids hnodup
    simp [Cache.get, hfind, if_pos hexp, h2]
  · intro hexp
    have h2 := find?_mapSet c.entries ids { e with lastAccessed := now }
    simp [Cache.get, hfind, if_neg hexp, h2]

/-- C6 witness: a cache with `ttl = 5` and an entry last accessed at 10;
reading at time 100 evicts and misses, reading at time 12 hits with the
refreshed timestamp. -/
theorem c6_ttl_expiry_witness :
    (((⟨[("a", ⟨7, 10, 0, 0⟩)], 1000, 5, ["a"]⟩ : Cache).get 100 "a").1 = none
     ∧ ((⟨[("a", ⟨7, 10, 0, 0⟩)], 1000, 5, ["a"]⟩ : Cache).get 100 "a").2.entries.find?
         (fun p => p.1 == "a") = none)
    ∧ (((⟨[("a", ⟨7, 10, 0, 0⟩)], 1000, 5, ["a"]⟩ : Cache).get 12 "a").1 = some 7
       ∧ ((⟨[("a", ⟨7, 10, 0, 0⟩)], 1000, 5, ["a"]⟩ : Cache).get 12 "a").2.entries.find?
           (fun p => p.1 == "a") = some ("a", ⟨7, 12, 0, 0⟩)
       ∧ ((⟨[("a", ⟨7, 10, 0, 0⟩)], 1000, 5, ["a"]⟩ : Cache).get 12 "a").2.accessOrder.head?
           = some "a") :=
  ⟨(c6_ttl_expiry ⟨[("a", ⟨7, 10, 0, 0⟩)], 1000, 5, ["a"]⟩ "a" ⟨7, 10, 0, 0⟩ 100
      rfl (by decide)).1 (by decide),
   (c6_ttl_expiry ⟨[("a", ⟨7, 10, 0, 0⟩)], 1000, 5, ["a"]⟩ "a" ⟨7, 10, 0, 0⟩ 12
      rfl (by decide)).2 (by decide)⟩

theorem verify_of_baseLabel_mem (cfg : Config) (iss : GIssue) (ids : String)
    (h : cfg.baseLabel ∈ iss.labels) : verifyIssueLabels cfg iss ids = true :=
  List.any_eq_true.mpr ⟨cfg.baseLabel, h, by simp⟩

/-- C3 counterexample world: the cache maps `"a"` to issue 5, whose label
set carries the base label but the UID label of a different object `"b"`. -/
def wBad : W :=
  { client := { token := Token.null, config := defaultConfig,
                cache := { entries := [("a", ⟨5, 0, 0, 0⟩)], maxSize := 1000,
                           ttl := 3600000, accessOrder := ["a"] } },
    srv := { issues := [{ number := 5, title := "Stored Object: b",
                          body := some (J.num 99),
                          labels := ["gh-store", "stored-object", "UID:b"],
                          isOpen := false, created_at := 0, updated_at := 0,
                          comments := [] }],
             nextIssue := 6, nextComment := 1 } }

/-- C3 counterexample: the cache entry for `"a"` points at issue 5 whose
label set does not include the claimed ID's label `"UID:a"`, yet
`getObject("a")` does return that issue's data (99): `_verifyIssueLabels`
accepts the shared base label alone, so the mismatch goes unnoticed. -/
theorem c3_counterexample :
    (getObject wBad 0 "a").toOption.map (fun p => (p.1.meta.issueNumber, p.1.data))
      = some (5, J.num 99)
    ∧ ((wBad.srv.getIssue 5).map (fun i => i.labels.contains ("UID:" ++ "a")))
      = some false :=
  ⟨rfl, rfl⟩

/-- C3 (amended): for a cache entry pointing at an issue whose label set
contains neither the base label nor the claimed ID's label (so that
`_verifyIssueLabels` fails), `getObject` behaves exactly as if the entry
had been removed: it invalidates the entry and resolves through the fresh
closed-state label query (one fallback, no recursion), and any object it
returns comes from the head of that query — an issue that does satisfy
label verification.  The claim as stated is wrong only in requiring this
for every issue missing the ID label: an issue carrying the base label
alone passes verification (see the counterexample). -/
theorem c3_mismatch_recovery (w : W) (now : Nat) (ids : String) (num : Nat) (iss : GIssue)
    (hnodup : (w.client.cache.entries.map Prod.fst).Nodup)
    (hhit : (w.client.cache.get now ids).1 = some num)
    (hiss : w.srv.getIssue num = some iss)
    (hver : verifyIssueLabels w.client.config iss ids = false) :
    getObject w now ids
      = getObject (w.withCache ((w.client.cache.get now ids).2.remove ids)) now ids
    ∧ ∀ o w', getObject w now ids = Except.ok (o, w') →
        ∃ iss', (w.srv.queryIssues ["gh-store", w.client.config.baseLabel,
                   w.client.config.uidPre ++ ids] (some false)).head? = some iss'
          ∧ o.meta.issueNumber = iss'.number
          ∧ verifyIssueLabels w.client.config iss' ids = true := by
  rcases hfind : w.client.cache.entries.find? (fun p => p.1 == ids) with _ | ⟨a, e⟩
  · exfalso
    have h0 : (w.client.cache.get now ids).1 = none := by
      simp [Cache.get, hfind]
    rw [h0] at hhit
    exact Option.noConfusion hhit
  · have hp := List.find?_some hfind
    have ha : a = ids := eq_of_beq (by simpa using hp)
    rw [ha] at hfind
    by_cases hexp : now - e.lastAccessed > w.client.cache.ttl
    · exfalso
      have h0 : (w.client.cache.get now ids).1 = none := by
        simp [Cache.get, hfind, if_pos hexp]
      rw [h0] at hhit
      exact Option.noConfusion hhit
    · have hget : w.client.cache.get now ids =
          (some e.issueNumber,
           { w.client.cache with
             entries := mapSet w.client.cache.entries ids { e with lastAccessed := now },
             accessOrder := ids :: removeFirst w.client.cache.accessOrder ids }) := by
        simp [Cache.get, hfind, if_neg hexp]
      have hnum : num = e.issueNumber := by
        rw [hget] at hhit
        exact (Option.some_inj.mp hhit).symm
      subst hnum
      have hany : w.client.cache.entries.any (fun p => p.1 == ids) = true :=
        any_of_find?_some _ _ _ hfind
      have hkeys : (mapSet w.client.cache.entries ids
            { e with lastAccessed := now }).map Prod.fst
          = w.client.cache.entries.map Prod.fst := map_fst_mapSet_of_any _ _ _ hany
      have hdel : (mapDelete (mapSet w.client.cache.entries ids
            { e with lastAccessed := now }) ids).find? (fun p => p.1 == ids) = none :=
        find?_mapDelete_of_nodup _ ids (by rw [hkeys]; exact hnodup)
      constructor
      · simp [getObject, Cache.get, Cache.remove, W.withCache, hfind, hiss, hver, hdel,
              removeFirst, if_neg hexp]
      · intro o w' ho
        rw [getObject] at ho
        simp only [hget, hiss, hver, Bool.false_eq_true, if_false] at ho
        rcases hq : w.srv.queryIssues ["gh-store", w.client.config.baseLabel,
            w.client.config.uidPre ++ ids] (some false) with _ | ⟨iss', rest⟩
        · rw [hq] at ho
          simp at ho
        · rw [hq] at ho
          dsimp only at ho
          have hmemq : iss' ∈ w.srv.queryIssues ["gh-store", w.client.config.baseLabel,
              w.client.config.uidPre ++ ids] (some false) := by
            rw [hq]
            exact List.mem_cons_self iss' rest
          have hpred := List.of_mem_filter hmemq
          rw [Bool.and_eq_true] at hpred
          have hcont := (List.all_eq_true.mp hpred.1) w.client.config.baseLabel (by simp)
          have hmemb : w.client.config.baseLabel ∈ iss'.labels := by
            simpa using hcont
          refine ⟨iss', rfl, ?_, verify_of_baseLabel_mem _ _ _ hmemb⟩
          rcases hb : iss'.body with _ | data
          · rw [hb] at ho
            simp at ho
          · rw [hb] at ho
            rcases hv : getVersion w.srv iss'.number with er | v
            · rw [hv] at ho
              simp at ho
            · rw [hv] at ho
              simp only [Except.ok.injEq, Prod.mk.injEq] at ho
              rw [← ho.1]

/-- An issue whose labels contain neither the base label nor `"UID:a"`. -/
def issMis : GIssue :=
  { number := 5, title := "x", body := some (J.num 1),
    labels := ["deprecated-object", "UID:b"], isOpen := false,
    created_at := 0, updated_at := 0, comments := [] }

/-- The correctly labelled closed issue for object `"a"`. -/
def issOk : GIssue :=
  { number := 7, title := "Stored Object: a", body := some (J.num 2),
    labels := ["gh-store", "stored-object", "UID:a"], isOpen := false,
    created_at := 0, updated_at := 0, comments := [] }

/-- A world where the cache points `"a"` at the mislabelled issue 5 while
the proper issue 7 is resolvable by label query. -/
def wMis : W :=
  { client := { token := Token.null, config := defaultConfig,
                cache := { entries := [("a", ⟨5, 0, 0, 0⟩)], maxSize := 1000,
                           ttl := 3600000, accessOrder := ["a"] } },
    srv := { issues := [issMis, issOk], nextIssue := 8, nextComment := 1 } }

/-- C3 witness: the hypotheses of the recovery theorem hold in `wMis`. -/
theorem c3_mismatch_recovery_witness :
    getObject wMis 0 "a"
      = getObject (wMis.withCache ((wMis.client.cache.get 0 "a").2.remove "a")) 0 "a"
    ∧ ∀ o w', getObject wMis 0 "a" = Except.ok (o, w') →
        ∃ iss', (wMis.srv.queryIssues ["gh-store", wMis.client.config.baseLabel,
                   wMis.client.config.uidPre ++ "a"] (some false)).head? = some iss'
          ∧ o.meta.issueNumber = iss'.number
          ∧ verifyIssueLabels wMis.client.config iss' "a" = true :=
  c3_mismatch_recovery wMis 0 "a" 5 issMis (by decide) rfl rfl (by decide)

/-- A backing issue for `"x"` whose single comment body is the JSON
literal `null` (well-formed JSON). -/
def issNull : GIssue :=
  { number := 1, title := "Stored Object: x", body := some (J.num 0),
    labels := ["gh-store", "stored-object", "UID:x"], isOpen := false,
    created_at := 0, updated_at := 0, comments := [⟨1, some J.null, 0, []⟩] }

def wNull : W :=
  { client := { token := Token.null, config := defaultConfig,
                cache := Cache.empty 1000 3600000 },
    srv := { issues := [issNull], nextIssue := 2, nextComment := 2 } }

/-- C7 counterexample: a comment whose body is the well-formed JSON value
`null` (a raw value with no envelope, shape (c)) is silently skipped by
`getObjectHistory` instead of decoding to an entry: in the source,
`"_data" in null` raises a TypeError that the per-comment catch swallows.
The issue has one well-formed comment, yet the history is empty. -/
theorem c7_counterexample :
    (wNull.srv.getIssue 1).map (fun i => i.comments.map (fun c => c.body))
      = some [some J.null]
    ∧ getObjectHistory wNull "x" = Except.ok [] :=
  ⟨rfl, rfl⟩

/-- C7 (amended): `getObjectHistory` decodes every well-formed-JSON comment
body other than the literal `null` to an entry with the correct type:
(a) an envelope carrying `_data` decodes with the envelope's truthy `type`
(defaulting to "update" when absent or falsy) and data `_data`; (b) a bare
object with `type === "initial_state"` and no `_data` decodes with type
"initial_state" and data from its `data` field; (c) any non-object value
decodes verbatim with type "update".  A comment whose body is not valid
JSON — or is the JSON literal `null`, which makes the decoder throw — is
silently skipped; the history is the in-order best-effort decode of the
resolved issue's comments. -/
theorem c7_decode_compat :
    (∀ (fs : List (String × J)) (d : J), jsGet fs "_data" = some d →
       jsGet fs "type" = none →
       decodeParsed (J.obj fs) = some (J.str "update", some d))
    ∧ (∀ (fs : List (String × J)) (d tv : J), jsGet fs "_data" = some d →
       jsGet fs "type" = some tv → jTruthy tv = true →
       decodeParsed (J.obj fs) = some (tv, some d))
    ∧ (∀ (fs : List (String × J)), jsGet fs "_data" = none →
       jsGet fs "type" = some (J.str "initial_state") →
       decodeParsed (J.obj fs) = some (J.str "initial_state", jsGet fs "data"))
    ∧ (∀ (n : J), (∀ fs, n ≠ J.obj fs) → n ≠ J.null →
       decodeParsed n = some (J.str "update", some n))
    ∧ (∀ (w : W) (ids : String) (iss : GIssue) (rest : List GIssue) (cs : List GComment),
       w.srv.queryIssues [w.client.config.baseLabel, w.client.config.uidPre ++ ids] none
         = iss :: rest →
       w.srv.listComments iss.number = Except.ok cs →
       getObjectHistory w ids = Except.ok (cs.filterMap decodeEntry)) := by
  refine ⟨?_, ?_, ?_, ?_, ?_⟩
  · intro fs d h1 h2
    simp [decodeParsed, h1, h2]
  · intro fs d tv h1 h2 h3
    simp [decodeParsed, h1, h2, h3]
  · intro fs h1 h2
    simp [decodeParsed, h1, h2, jIsStr]
  · intro n hobj hnull
    cases n with
    | null => exact absurd rfl hnull
    | obj fs => exact absurd rfl (hobj fs)
    | bool b => rfl
    | num m => rfl
    | str s => rfl
    | arr xs => rfl
  · intro w ids iss rest cs hq hc
    simp only [getObjectHistory]
    rw [hq]
    dsimp only
    rw [hc]

/-- C7 witness: each decoding shape at a concrete input, and the history
glue on the `wNull` world. -/
theorem c7_decode_compat_witness :
    decodeParsed (J.obj [("_data", J.num 7)]) = some (J.str "update", some (J.num 7))
    ∧ decodeParsed (J.obj [("_data", J.num 7), ("type", J.str "custom")])
        = some (J.str "custom", some (J.num 7))
    ∧ decodeParsed (J.obj [("type", J.str "initial_state"), ("data", J.num 8)])
        = some (J.str "initial_state",
                jsGet [("type", J.str "initial_state"), ("data", J.num 8)] "data")
    ∧ decodeParsed (J.num 9) = some (J.str "update", some (J.num 9))
    ∧ getObjectHistory wNull "x" = Except.ok (issNull.comments.filterMap decodeEntry) :=
  ⟨c7_decode_compat.1 _ _ rfl rfl,
   c7_decode_compat.2.1 _ _ _ rfl rfl rfl,
   c7_decode_compat.2.2.1 _ rfl rfl,
   c7_decode_compat.2.2.2.1 _ (fun _ h => J.noConfusion h) (fun h => J.noConfusion h),
   c7_decode_compat.2.2.2.2 wNull "x" issNull [] issNull.comments rfl rfl⟩

theorem sinceLoop_bound (srv : Server) (cfg : Config) (ts : Nat) :
    ∀ (issues : List GIssue) (acc : List (String × StoredObj)),
      (∀ p ∈ acc, ts < p.2.meta.updatedAt) →
      ∀ p ∈ sinceLoop srv cfg ts acc issues, ts < p.2.meta.updatedAt := by
  intro issues
  induction issues with
  | nil =>
    intro acc hacc p hp
    exact hacc p hp
  | cons iss rest ih =>
    intro acc hacc p hp
    by_cases harch : iss.labels.contains "archived" = true
    · rw [sinceLoop, if_pos harch] at hp
      exact ih acc hacc p hp
    · rw [sinceLoop, if_neg harch] at hp
      rcases hid : getObjectIdFromLabels cfg iss with _ | oid
      · rw [hid] at hp
        exact ih acc hacc p (by
          rcases hb : iss.body with _ | data
          · rw [hb] at hp; exact hp
          · rw [hb] at hp; exact hp)
      · rw [hid] at hp
        rcases hb : iss.body with _ | data
        · rw [hb] at hp
          exact ih acc hacc p hp
        · rw [hb] at hp
          dsimp only at hp
          by_cases hts : ts < iss.updated_at
          · rw [if_pos hts] at hp
            rcases hv : getVersion srv iss.number with er | v
            · rw [hv] at hp
              exact ih acc hacc p hp
            · rw [hv] at hp
              refine ih _ ?_ p hp
              intro q hq
              rcases mem_upsert _ _ _ q hq with hq | hq
              · exact hacc q hq
              · rw [hq]
                exact hts
          · rw [if_neg hts] at hp
            exact ih acc hacc p hp

/-- C8: every object assembled by `listUpdatedSince(ts)` has an issue
`updated_at` strictly after `ts` — the client-side re-check excludes the
boundary and anything the server-side `since` filter let through. -/
theorem c8_strictly_after (w : W) (ts : Nat) :
    ∀ p ∈ listUpdatedSince w ts, ts < p.2.meta.updatedAt := by
  intro p hp
  exact sinceLoop_bound w.srv w.client.config ts _ [] (by simp) p hp

/-- A store with one object updated at time 5. -/
def wSince : W :=
  { client := { token := Token.null, config := defaultConfig,
                cache := Cache.empty 1000 3600000 },
    srv := { issues := [{ number := 1, title := "Stored Object: x",
                          body := some (J.num 4),
                          labels := ["gh-store", "stored-object", "UID:x"],
                          isOpen := false, created_at := 0, updated_at := 5,
                          comments := [] }],
             nextIssue := 2, nextComment := 1 } }

def pSince : String × StoredObj :=
  ("x", { meta := { objectId := "x", label := "x", issueNumber := 1,
                    createdAt := 0, updatedAt := 5, version := 1 },
          data := J.num 4 })

/-- C8 witness: the single listed object of `wSince` at `ts = 3`. -/
theorem c8_strictly_after_witness : 3 < pSince.2.meta.updatedAt :=
  c8_strictly_after wSince 3 pSince (by
    have h : listUpdatedSince wSince 3 = [pSince] := rfl
    rw [h]
    exact List.mem_singleton.mpr rfl)

/-- C9: a client configured with the empty-string token or with an
undefined token is not "public" (`isPublic` compares strictly with null
only), yet every `createObject`/`updateObject` call fails with the
authentication-required error (the mutation gate rejects any falsy
token). -/
theorem c9_auth_gate (w : W) (now : Nat) (ids : String) (d : J) (extras : List String)
    (h : w.client.token = Token.str "" ∨ w.client.token = Token.undef) :
    isPublic w.client = false
    ∧ createObject w now ids d extras
        = Except.error "Authentication required for creating objects"
    ∧ updateObject w now ids d
        = Except.error "Authentication required for updating objects" := by
  rcases h with h | h <;>
    simp [isPublic, createObject, updateObject, Token.truthy, h]

/-- C9 witness: the empty-string token on a fresh client. -/
theorem c9_auth_gate_witness :
    isPublic (freshW (Token.str "")).client = false
    ∧ createObject (freshW (Token.str "")) 0 "x" (J.num 1) []
        = Except.error "Authentication required for creating objects"
    ∧ updateObject (freshW (Token.str "")) 0 "x" (J.num 1)
        = Except.error "Authentication required for updating objects" :=
  c9_auth_gate (freshW (Token.str "")) 0 "x" (J.num 1) [] (Or.inl rfl)

theorem stringData_append (a b : String) : (a ++ b).data = a.data ++ b.data := by
  cases a
  cases b
  rfl

theorem listAllLoop_label (srv : Server) (cfg : Config) :
    ∀ (issues : List GIssue) (acc : List (String × StoredObj)),
      (∀ p ∈ acc, p.2.meta.label = p.2.meta.objectId) →
      ∀ p ∈ listAllLoop srv cfg acc issues, p.2.meta.label = p.2.meta.objectId := by
  intro issues
  induction issues with
  | nil =>
    intro acc hacc p hp
    exact hacc p hp
  | cons iss rest ih =>
    intro acc hacc p hp
    by_cases harch : iss.labels.contains "archived" = true
    · rw [listAllLoop, if_pos harch] at hp
      exact ih acc hacc p hp
    · rw [listAllLoop, if_neg harch] at hp
      rcases hid : getObjectIdFromLabels cfg iss with _ | oid
      · rw [hid] at hp
        exact ih acc hacc p (by
          rcases hb : iss.body with _ | data
          · rw [hb] at hp; exact hp
          · rw [hb] at hp; exact hp)
      · rw [hid] at hp
        rcases hb : iss.body with _ | data
        · rw [hb] at hp
          exact ih acc hacc p hp
        · rw [hb] at hp
          dsimp only at hp
          rcases hv : getVersion srv iss.number with er | v
          · rw [hv] at hp
            exact ih acc hacc p hp
          · rw [hv] at hp
            refine ih _ ?_ p hp
            intro q hq
            rcases mem_upsert _ _ _ q hq with hq | hq
            · exact hacc q hq
            · rw [hq]

/-- C10: the two read paths disagree on `meta.label` for every stored
object: every object assembled by `listAll` carries the bare object id as
its `label`, while `getObject` for the same id sets `label` to the
UID-qualified form `<uidPre><id>`; the two differ whenever the configured
UID marker is non-empty (the default is `"UID:"`). -/
theorem c10_label_disagreement :
    (∀ (w : W) (p : String × StoredObj), p ∈ listAll w →
       p.2.meta.label = p.2.meta.objectId)
    ∧ (∀ (w : W) (now : Nat) (ids : String) (o : StoredObj) (w' : W),
       getObject w now ids = Except.ok (o, w') →
       o.meta.label = w.client.config.uidPre ++ ids ∧ o.meta.objectId = ids)
    ∧ (∀ (ids pre : String), pre ≠ "" → pre ++ ids ≠ ids) := by
  refine ⟨?_, ?_, ?_⟩
  · intro w p hp
    exact listAllLoop_label w.srv w.client.config _ [] (by simp) p hp
  · intro w now ids o w' h
    unfold getObject at h
    dsimp only at h
    repeat' split at h
    all_goals
      first
        | exact Except.noConfusion h
        | (exfalso; simp_all; done)
        | (injection h with h1
           injection h1 with h2 h3
           exact ⟨by rw [← h2], by rw [← h2]⟩)
  · intro ids pre hpre he
    apply hpre
    have hd : pre.data ++ ids.data = ids.data := by
      rw [← stringData_append]
      exact congrArg String.data he
    have hlen : pre.data.length = 0 := by
      have := congrArg List.length hd
      rw [List.length_append] at this
      omega
    have hnil : pre.data = [] := List.eq_nil_of_length_eq_zero hlen
    cases pre with
    | mk l =>
      simp only [String.data] at hnil
      rw [hnil]

/-- The object returned by `getObject wSince 0 "x"`. -/
def oGot : StoredObj :=
  { meta := { objectId := "x", label := "UID:" ++ "x", issueNumber := 1,
              createdAt := 0, updatedAt := 5, version := 1 },
    data := J.num 4 }

/-- The world after `getObject wSince 0 "x"` (cache refreshed). -/
def wGot : W :=
  { client := { token := Token.null, config := defaultConfig,
                cache := { entries := [("x", ⟨1, 0, 0, 5⟩)], maxSize := 1000,
                           ttl := 3600000, accessOrder := ["x"] } },
    srv := wSince.srv }

/-- C10 witness: on the `wSince` store, `listAll` labels the object `"x"`
with the bare id while `getObject` labels it `"UID:x"`, and the two
disagree. -/
theorem c10_label_disagreement_witness :
    pSince.2.meta.label = pSince.2.meta.objectId
    ∧ (oGot.meta.label = wSince.client.config.uidPre ++ "x" ∧ oGot.meta.objectId = "x")
    ∧ "UID:" ++ "x" ≠ "x" :=
  ⟨c10_label_disagreement.1 wSince pSince (by
      have h : listAll wSince = [pSince] := rfl
      rw [h]
      exact List.mem_singleton.mpr rfl),
   c10_label_disagreement.2.1 wSince 0 "x" oGot wGot rfl,
   c10_label_disagreement.2.2 "x" "UID:" (by decide)⟩
